import Mathlib

/-!
Verification of the invariant-test call-generation engine
(`crates/evm/fuzz/src/strategies/invariants.rs`) and of the verifier-URL
error path of `crates/forge/bin/cmd/verify/mod.rs`.

Randomness is made explicit: every proptest strategy is embedded as a
function of the random choices it consumes (a selector index for
`prop::sample::Selector`, a pick value for a weighted `Union`, and the
raw values produced by the parameter-fuzzing sub-strategies).  The
outcome of one draw is a `Draw`: a produced value, a `prop_filter`
rejection (the runner redraws), or a Rust panic (the draw aborts).
-/

/-- 20-byte EVM addresses, modelled as natural numbers. -/
abbrev Address := Nat

/-- `alloy_json_abi::StateMutability`. -/
inductive StateMutability where
  | pure
  | view
  | nonpayable
  | payable
deriving DecidableEq, Repr

/-- `alloy_json_abi::Function`: the call-generation engine only reads the
signature (here kept as a name plus the derived 4-byte selector) and the
state mutability. -/
structure Function where
  name : String
  selector : List Nat
  state_mutability : StateMutability
deriving DecidableEq, Repr

/-- `alloy_json_abi::JsonAbi`, restricted to its function list, which is all
the generation engine reads. -/
structure JsonAbi where
  functions : List Function
deriving DecidableEq, Repr

/-- `SenderFilters { targeted, excluded }`. -/
structure SenderFilters where
  targeted : List Address
  excluded : List Address
deriving DecidableEq, Repr

/-- A snapshot of `FuzzRunIdentifiedContracts`
(`BTreeMap<Address, (String, JsonAbi, Vec<Function>)>`) as read under the
lock at draw time: an association list from address to
(name, abi, targeted functions). -/
abbrev FuzzRunIdentifiedContracts := List (Address × String × JsonAbi × List Function)

/-- Outcome of one strategy draw: a value, a `prop_filter` rejection
(redrawn by the runner, never emitted), or a Rust panic (hard abort of
the draw). -/
inductive Draw (α : Type) where
  | val : α → Draw α
  | reject : Draw α
  | panic : Draw α
deriving DecidableEq, Repr

/-- Monadic composition of draws (`prop_flat_map` / `prop_map`):
rejections and panics propagate. -/
def Draw.bind : Draw α → (α → Draw β) → Draw β
  | .val a, f => f a
  | .reject, _ => .reject
  | .panic, _ => .panic

/-- `prop::sample::Selector::select` over a runtime collection: picks the
element at the (index mod size) position; panics on an empty collection. -/
def selectorSelect (l : List α) (i : Nat) : Draw α :=
  if h : l.length = 0 then Draw.panic
  else Draw.val (l.get ⟨i % l.length, Nat.mod_lt _ (Nat.pos_of_ne_zero h)⟩)

/-- `pick_weighted` of proptest's weighted `Union`: draw `p mod (sum of
weights)` and walk the weights cumulatively; `none` when the total weight
is zero (`gen_range(0..0)` panics). -/
def pickWeightedAux : List Nat → Nat → Nat → Option Nat
  | [], _, _ => none
  | w :: ws, p, idx => if p < w then some idx else pickWeightedAux ws (p - w) (idx + 1)

/-- Weighted branch pick over a list of weights. -/
def pick_weighted (weights : List Nat) (p : Nat) : Option Nat :=
  if weights.sum = 0 then none
  else pickWeightedAux weights (p % weights.sum) 0

/-- `proptest::strategy::Union::new_weighted(vec![(w1, d1), (w2, d2)])`:
a two-alternative weighted union.  `new_weighted` asserts at strategy
construction that every individual weight is nonzero (panicking with
"Union option has a weight of 0"), so a zero weight panics before any
pick is drawn. -/
def unionTwoWeighted (w1 w2 : Nat) (d1 d2 : Draw α) (p : Nat) : Draw α :=
  if w1 = 0 ∨ w2 = 0 then Draw.panic
  else
    match pick_weighted [w1, w2] p with
    | some 0 => d1
    | some 1 => d2
    | _ => Draw.panic

/- ### Helper lemmas about the combinators -/

theorem Draw.bind_eq_val {x : Draw α} {f : α → Draw β} {b : β}
    (h : x.bind f = Draw.val b) : ∃ a, x = Draw.val a ∧ f a = Draw.val b := by
  cases x with
  | val a => exact ⟨a, rfl, h⟩
  | reject => simp [Draw.bind] at h
  | panic => simp [Draw.bind] at h

theorem selectorSelect_val_mem {l : List α} {i : Nat} {a : α}
    (h : selectorSelect l i = Draw.val a) : a ∈ l := by
  unfold selectorSelect at h
  split at h
  · simp at h
  · simp only [Draw.val.injEq] at h
    subst h
    exact List.get_mem _ _ _

theorem selectorSelect_of_mem {l : List α} {a : α} (h : a ∈ l) :
    ∃ i, selectorSelect l i = Draw.val a := by
  obtain ⟨⟨n, hn⟩, rfl⟩ := List.mem_iff_get.mp h
  refine ⟨n, ?_⟩
  unfold selectorSelect
  have hne : l.length ≠ 0 := by omega
  simp only [hne, dite_false]
  have hmod : n % l.length = n := Nat.mod_eq_of_lt hn
  simp [hmod]

theorem unionTwoWeighted_eq {w1 w2 : Nat} (h1 : w1 ≠ 0) (h2 : w2 ≠ 0)
    (d1 d2 : Draw α) (p : Nat) :
    unionTwoWeighted w1 w2 d1 d2 p =
      if p % (w1 + w2) < w1 then d1 else d2 := by
  have h : w1 + w2 ≠ 0 := by omega
  have hsum : ([w1, w2] : List Nat).sum = w1 + w2 := by simp
  have hlt : p % (w1 + w2) < w1 + w2 := Nat.mod_lt _ (Nat.pos_of_ne_zero h)
  unfold unionTwoWeighted pick_weighted
  rw [if_neg (by tauto : ¬(w1 = 0 ∨ w2 = 0))]
  rw [hsum]
  simp only [h, if_false]
  unfold pickWeightedAux
  by_cases hc : p % (w1 + w2) < w1
  · simp [hc]
  · have hlt2 : p % (w1 + w2) - w1 < w2 := by omega
    simp [hc, pickWeightedAux, hlt2]

/- ### Embedding of `crates/evm/fuzz/src/strategies/invariants.rs` -/

/-- `select_random_contract`: reads the registry snapshot, keeps only
contracts whose ABI exposes at least one function, and picks one of them
with `prop::sample::Selector` (`ci` is the selector's index draw).  The
selector panics when the filtered collection is empty. -/
def select_random_contract (contracts : FuzzRunIdentifiedContracts) (ci : Nat) :
    Draw (Address × JsonAbi × List Function) :=
  (selectorSelect (contracts.filter fun e => !e.2.2.1.functions.isEmpty) ci).bind
    fun e => Draw.val (e.1, e.2.2.1, e.2.2.2)

/-- `select_random_function`: if `targeted_functions` is non-empty, pick one
of them; otherwise pick among the ABI functions whose state mutability is
neither `Pure` nor `View` (`fi` is the selector's index draw). -/
def select_random_function (abi : JsonAbi) (targeted_functions : List Function)
    (fi : Nat) : Draw Function :=
  let possible_funcs := abi.functions.filter fun func =>
    !(func.state_mutability == StateMutability.pure
      || func.state_mutability == StateMutability.view)
  if !targeted_functions.isEmpty then
    selectorSelect targeted_functions fi
  else
    selectorSelect possible_funcs fi

/-- `select_random_sender`: the source constructs
`Union::new_weighted(vec![(100 - dictionary_weight, ..), (dictionary_weight, ..)])`
eagerly, BEFORE the targeted check, so `new_weighted`'s assertion that
every weight is nonzero panics every draw — targeted branch included —
when `dictionary_weight` is `0` or `100` (the leading condition below).
For `dictionary_weight ≤ 100` the `Nat` subtraction coincides with the
source's `u32` subtraction; beyond `100` the model's `100 - w = 0` panic
stands for the checked-subtraction overflow panic.  Otherwise: when
`senders.targeted` is non-empty, pick one of it (`si` is the selector's
index draw); else draw from the weighted union of a uniformly random
address (weight `100 - dictionary_weight`, value `randAddr` as produced
by `fuzz_param`) and a dictionary address (weight `dictionary_weight`,
value `dictAddr` as produced by `fuzz_param_from_state`), with `sp` the
union's pick draw, the drawn address then passing the `prop_filter`
rejecting members of `senders.excluded`. -/
def select_random_sender (senders : SenderFilters) (dictionary_weight : Nat)
    (sp : Nat) (randAddr dictAddr : Address) (si : Nat) : Draw Address :=
  if 100 - dictionary_weight = 0 ∨ dictionary_weight = 0 then Draw.panic
  else
    let fuzz_strategy :=
      (unionTwoWeighted (100 - dictionary_weight) dictionary_weight
          (Draw.val randAddr) (Draw.val dictAddr) sp).bind
        fun addr =>
          if senders.excluded.contains addr then Draw.reject else Draw.val addr
    if !senders.targeted.isEmpty then
      selectorSelect senders.targeted si
    else
      fuzz_strategy

/-- Modelled from the spec: `fuzz_calldata_with_config` lives outside the
excerpt (`strategies/calldata.rs`); per the spec it synthesizes
ABI-conformant calldata for `func` by dictionary-biased per-parameter
generation, i.e. the 4-byte selector followed by the encoded arguments
(`encodedArgs` stands for the bytes the parameter sub-strategies drew). -/
def fuzz_calldata_with_config (func : Function) (encodedArgs : List Nat) : List Nat :=
  func.selector ++ encodedArgs

/-- Modelled from the spec: `fuzz_calldata_from_state` lives outside the
excerpt (`strategies/state.rs`); per the spec it synthesizes calldata for
`func` from the Value Dictionary, again selector followed by encoded
arguments. -/
def fuzz_calldata_from_state (func : Function) (encodedArgs : List Nat) : List Nat :=
  func.selector ++ encodedArgs

/-- `fuzz_contract_with_calldata`: weighted union (`prop_oneof!`) of the
config-dictionary calldata strategy (weight 60) and the state-dictionary
calldata strategy (weight 40), paired with the target address.  `cp` is
the union's pick draw; `argsConfig` / `argsState` are the argument bytes
drawn by the respective sub-strategies. -/
def fuzz_contract_with_calldata (contract : Address) (func : Function)
    (cp : Nat) (argsConfig argsState : List Nat) : Draw (Address × List Nat) :=
  (unionTwoWeighted 60 40
      (Draw.val (fuzz_calldata_with_config func argsConfig))
      (Draw.val (fuzz_calldata_from_state func argsState)) cp).bind
    fun calldata => Draw.val (contract, calldata)

/-- `generate_call`: select a contract, then a function on it, then a
sender, then calldata; assemble `(sender, (target, calldata))`
(`BasicTxDetails`). -/
def generate_call (senders : SenderFilters) (contracts : FuzzRunIdentifiedContracts)
    (dictionary_weight : Nat) (ci fi sp : Nat) (randAddr dictAddr : Address)
    (si cp : Nat) (argsConfig argsState : List Nat) :
    Draw (Address × Address × List Nat) :=
  (select_random_contract contracts ci).bind fun cinfo =>
  (select_random_function cinfo.2.1 cinfo.2.2 fi).bind fun func =>
  (select_random_sender senders dictionary_weight sp randAddr dictAddr si).bind fun sender =>
  (fuzz_contract_with_calldata cinfo.1 func cp argsConfig argsState).bind fun tc =>
  Draw.val (sender, tc.1, tc.2)

/-- `invariant_strat`: `generate_call(..).prop_map(|x| vec![x])` — only the
first call of a sequence is seeded by the strategy. -/
def invariant_strat (senders : SenderFilters) (contracts : FuzzRunIdentifiedContracts)
    (dictionary_weight : Nat) (ci fi sp : Nat) (randAddr dictAddr : Address)
    (si cp : Nat) (argsConfig argsState : List Nat) :
    Draw (List (Address × Address × List Nat)) :=
  (generate_call senders contracts dictionary_weight ci fi sp randAddr dictAddr
      si cp argsConfig argsState).bind
    fun x => Draw.val [x]

/-- The `random_contract` strategy of `override_call_strat`: picks among
ALL keys of the registry (`contracts.lock().keys()`), with no filtering. -/
def override_random_contract (contracts : FuzzRunIdentifiedContracts) (ci : Nat) :
    Draw Address :=
  selectorSelect (contracts.map fun e => e.1) ci

/-- The target-address union of `override_call_strat`: weight 80 on the
externally supplied `target`, weight 20 on `override_random_contract`. -/
def override_target_draw (contracts : FuzzRunIdentifiedContracts) (target : Address)
    (up ci : Nat) : Draw Address :=
  unionTwoWeighted 80 20 (Draw.val target) (override_random_contract contracts ci) up

/-- `BTreeMap::get` on the registry snapshot. -/
def registryGet (contracts : FuzzRunIdentifiedContracts) (a : Address) :
    Option (String × JsonAbi × List Function) :=
  (contracts.find? fun e => e.1 == a).map fun e => e.2

/-- `override_call_strat`: draw the target address from the 80/20 union,
look it up in the registry and `.unwrap()` (a missing key panics), then
select a function and synthesize calldata for that target. -/
def override_call_strat (contracts : FuzzRunIdentifiedContracts) (target : Address)
    (up ci fi cp : Nat) (argsConfig argsState : List Nat) :
    Draw (Address × List Nat) :=
  (override_target_draw contracts target up ci).bind fun target_address =>
  (match registryGet contracts target_address with
   | some info => Draw.val info
   | none => Draw.panic).bind fun info =>
  (select_random_function info.2.1 info.2.2 fi).bind fun func =>
  fuzz_contract_with_calldata target_address func cp argsConfig argsState

/- ### Embedding of the verifier-URL path of
`crates/forge/bin/cmd/verify/mod.rs` -/

/-- The slice of `reqwest::Url` read by `is_host_only`: the URL's path. -/
structure Url where
  path : String
deriving DecidableEq, Repr

/-- `is_host_only`: true when the parsed URL's path is `/` or empty. -/
def is_host_only (url : Url) : Bool :=
  url.path = "/" || url.path = ""

/-- The error value produced by `VerifyArgs::run`'s `map_err` closure:
either the inner verification error wrapped with an invalid-URL
diagnostic, wrapped with a host-only diagnostic, or passed through. -/
inductive VerifyRunError where
  | wrappedInvalidUrl (url parseErr inner : String)
  | wrappedHostOnly (url inner : String)
  | plain (inner : String)
deriving DecidableEq, Repr

/-- `VerifyArgs::run`, restricted to how it treats `verifier_url`: the URL
is never inspected before the verification operation runs; only when the
operation fails is it parsed (`urlParse` stands for `reqwest::Url::parse`)
to decorate the error.  `verifyOutcome` is the result of
`self.verifier.verifier.client(..)?.verify(self).await`. -/
def VerifyArgs.run (verifier_url : Option String)
    (urlParse : String → Except String Url)
    (verifyOutcome : Except String Unit) : Except VerifyRunError Unit :=
  match verifyOutcome with
  | .ok _ => .ok ()
  | .error err =>
    .error (match verifier_url with
      | some vu =>
        match urlParse vu with
        | .ok url => if is_host_only url then .wrappedHostOnly vu err else .plain err
        | .error uerr => .wrappedInvalidUrl vu uerr err
      | none => .plain err)

/- ### Characterization lemmas for the embedded strategies -/

theorem selectorSelect_nonempty {l : List α} (h : l ≠ []) (i : Nat) :
    ∃ a ∈ l, selectorSelect l i = Draw.val a := by
  have hl : l.length ≠ 0 := fun hh => h (List.length_eq_zero.mp hh)
  unfold selectorSelect
  simp only [hl, dite_false]
  exact ⟨_, List.get_mem _ _ _, rfl⟩

theorem unionTwoWeighted_cases (w1 w2 : Nat) (d1 d2 : Draw α) (p : Nat) :
    unionTwoWeighted w1 w2 d1 d2 p = d1 ∨ unionTwoWeighted w1 w2 d1 d2 p = d2 ∨
    unionTwoWeighted w1 w2 d1 d2 p = Draw.panic := by
  unfold unionTwoWeighted
  by_cases hz : w1 = 0 ∨ w2 = 0
  · rw [if_pos hz]
    exact Or.inr (Or.inr rfl)
  · rw [if_neg hz]
    rcases hpw : pick_weighted [w1, w2] p with _ | n
    · exact Or.inr (Or.inr rfl)
    · match n with
      | 0 => exact Or.inl rfl
      | 1 => exact Or.inr (Or.inl rfl)
      | Nat.succ (Nat.succ m) => exact Or.inr (Or.inr rfl)

theorem select_random_contract_val {contracts : FuzzRunIdentifiedContracts} {ci : Nat}
    {a : Address} {abi : JsonAbi} {fns : List Function}
    (h : select_random_contract contracts ci = Draw.val (a, abi, fns)) :
    ∃ name, (a, name, abi, fns) ∈ contracts ∧ abi.functions ≠ [] := by
  unfold select_random_contract at h
  obtain ⟨e, he, heq⟩ := Draw.bind_eq_val h
  obtain ⟨ea, en, eabi, efns⟩ := e
  have hmem := selectorSelect_val_mem he
  rw [List.mem_filter] at hmem
  obtain ⟨hmem', hpred⟩ := hmem
  simp only [Draw.val.injEq, Prod.mk.injEq] at heq
  obtain ⟨h1, h2, h3⟩ := heq
  subst h1; subst h2; subst h3
  refine ⟨en, hmem', ?_⟩
  intro hnil
  simp [hnil] at hpred

theorem select_random_contract_of_mem {contracts : FuzzRunIdentifiedContracts}
    {e : Address × String × JsonAbi × List Function} (he : e ∈ contracts)
    (hf : e.2.2.1.functions ≠ []) :
    ∃ j, select_random_contract contracts j = Draw.val (e.1, e.2.2.1, e.2.2.2) := by
  have hmem : e ∈ contracts.filter (fun e => !e.2.2.1.functions.isEmpty) := by
    rw [List.mem_filter]
    refine ⟨he, ?_⟩
    simp only [Bool.not_eq_true']
    cases hnil : e.2.2.1.functions with
    | nil => exact absurd hnil hf
    | cons x xs => simp [hnil]
  obtain ⟨j, hj⟩ := selectorSelect_of_mem hmem
  refine ⟨j, ?_⟩
  unfold select_random_contract
  rw [hj]
  rfl

theorem select_random_contract_empty {contracts : FuzzRunIdentifiedContracts}
    (h : contracts.filter (fun e => !e.2.2.1.functions.isEmpty) = []) (ci : Nat) :
    select_random_contract contracts ci = Draw.panic := by
  unfold select_random_contract selectorSelect
  rw [h]
  rfl

theorem select_random_function_val {abi : JsonAbi} {tfs : List Function} {fi : Nat}
    {f : Function} (h : select_random_function abi tfs fi = Draw.val f) :
    (tfs ≠ [] ∧ f ∈ tfs) ∨
    (tfs = [] ∧ f ∈ abi.functions ∧ f.state_mutability ≠ StateMutability.pure ∧
      f.state_mutability ≠ StateMutability.view) := by
  unfold select_random_function at h
  by_cases htf : tfs.isEmpty = true
  · right
    have htf' : tfs = [] := List.isEmpty_iff.mp htf
    simp only [htf, Bool.not_true, if_false] at h
    have hm := selectorSelect_val_mem h
    rw [List.mem_filter] at hm
    obtain ⟨hm1, hm2⟩ := hm
    simp only [Bool.not_eq_true', Bool.or_eq_false_iff, beq_eq_false_iff_ne, ne_eq] at hm2
    exact ⟨htf', hm1, hm2.1, hm2.2⟩
  · left
    have htf' : tfs ≠ [] := fun hh => htf (by simp [hh])
    simp only [htf, Bool.not_false, if_true] at h
    exact ⟨htf', selectorSelect_val_mem h⟩

theorem select_random_function_of_mem_targeted {abi : JsonAbi} {tfs : List Function}
    {f : Function} (hf : f ∈ tfs) :
    ∃ j, select_random_function abi tfs j = Draw.val f := by
  obtain ⟨j, hj⟩ := selectorSelect_of_mem hf
  refine ⟨j, ?_⟩
  unfold select_random_function
  have hne : tfs.isEmpty = false := by
    cases tfs with
    | nil => cases hf
    | cons x xs => rfl
  simp only [hne, Bool.not_false, if_true]
  exact hj

theorem select_random_function_of_mem_mutable {abi : JsonAbi} {f : Function}
    (hf : f ∈ abi.functions) (hp : f.state_mutability ≠ StateMutability.pure)
    (hv : f.state_mutability ≠ StateMutability.view) :
    ∃ j, select_random_function abi [] j = Draw.val f := by
  have hmem : f ∈ abi.functions.filter (fun func =>
      !(func.state_mutability == StateMutability.pure
        || func.state_mutability == StateMutability.view)) := by
    rw [List.mem_filter]
    refine ⟨hf, ?_⟩
    simp only [Bool.not_eq_true', Bool.or_eq_false_iff, beq_eq_false_iff_ne, ne_eq]
    exact ⟨hp, hv⟩
  obtain ⟨j, hj⟩ := selectorSelect_of_mem hmem
  exact ⟨j, hj⟩

theorem select_random_sender_zero_weight_panics (senders : SenderFilters)
    {w : Nat} (hz : 100 - w = 0 ∨ w = 0) (sp : Nat) (ra da : Address) (si : Nat) :
    select_random_sender senders w sp ra da si = Draw.panic := by
  unfold select_random_sender
  rw [if_pos hz]

theorem select_random_sender_targeted_eq {senders : SenderFilters}
    (ht : senders.targeted ≠ []) {w : Nat} (hw0 : 0 < w) (hw1 : w < 100)
    (sp : Nat) (ra da : Address) (si : Nat) :
    select_random_sender senders w sp ra da si = selectorSelect senders.targeted si := by
  unfold select_random_sender
  rw [if_neg (by omega : ¬(100 - w = 0 ∨ w = 0))]
  have hne : senders.targeted.isEmpty = false := by
    cases hh : senders.targeted with
    | nil => exact absurd hh ht
    | cons x xs => rfl
  simp [hne]

theorem select_random_sender_mix_eq {senders : SenderFilters}
    (ht : senders.targeted = []) {w : Nat} (hw0 : 0 < w) (hw1 : w < 100)
    (sp : Nat) (ra da : Address) (si : Nat) :
    select_random_sender senders w sp ra da si =
      if senders.excluded.contains (if sp % 100 < 100 - w then ra else da)
      then Draw.reject
      else Draw.val (if sp % 100 < 100 - w then ra else da) := by
  unfold select_random_sender
  rw [if_neg (by omega : ¬(100 - w = 0 ∨ w = 0))]
  simp only [ht, List.isEmpty_nil, Bool.not_true, if_false]
  have hsum : 100 - w + w = 100 := by omega
  rw [unionTwoWeighted_eq (by omega) (by omega), hsum]
  by_cases hc : sp % 100 < 100 - w <;> simp [hc, Draw.bind]

theorem fuzz_contract_with_calldata_eq (contract : Address) (func : Function)
    (cp : Nat) (argsConfig argsState : List Nat) :
    fuzz_contract_with_calldata contract func cp argsConfig argsState =
      Draw.val (contract,
        func.selector ++ (if cp % 100 < 60 then argsConfig else argsState)) := by
  unfold fuzz_contract_with_calldata fuzz_calldata_with_config fuzz_calldata_from_state
  rw [unionTwoWeighted_eq (by omega) (by omega)]
  by_cases hc : cp % (60 + 40) < 60
  · have hc' : cp % 100 < 60 := by omega
    simp [hc, hc', Draw.bind]
  · have hc' : ¬ cp % 100 < 60 := by omega
    simp [hc, hc', Draw.bind]

/-- A function is eligible for fuzzing on a registry entry with ABI `abi`
and targeted-function list `targeted_functions`: an explicitly targeted
function (regardless of mutability) when the list is non-empty, otherwise
any ABI function that is neither pure nor view. -/
def eligible_function (abi : JsonAbi) (targeted_functions : List Function)
    (f : Function) : Prop :=
  if targeted_functions.isEmpty then
    f ∈ abi.functions ∧ f.state_mutability ≠ StateMutability.pure ∧
      f.state_mutability ≠ StateMutability.view
  else f ∈ targeted_functions

/-- C1: every call produced by `generate_call` targets the address of a
contract registered in the registry snapshot, and its calldata starts with
the 4-byte selector of a function eligible on that same contract (a
targeted function, or a non-pure/non-view ABI function when no targeting
is set).  The hypothesis `hsel` records that registry functions carry
4-byte selectors. -/
theorem generate_call_target_registered_selector_eligible
    (senders : SenderFilters) (contracts : FuzzRunIdentifiedContracts)
    (w ci fi sp : Nat) (ra da : Address) (si cp : Nat) (argsC argsS : List Nat)
    (sender target : Address) (calldata : List Nat)
    (hsel : ∀ e ∈ contracts, (∀ f ∈ e.2.2.1.functions, f.selector.length = 4) ∧
        ∀ f ∈ e.2.2.2, f.selector.length = 4)
    (h : generate_call senders contracts w ci fi sp ra da si cp argsC argsS =
          Draw.val (sender, target, calldata)) :
    ∃ e ∈ contracts, e.1 = target ∧ e.2.2.1.functions ≠ [] ∧
      ∃ f, eligible_function e.2.2.1 e.2.2.2 f ∧ calldata.take 4 = f.selector := by
  unfold generate_call at h
  obtain ⟨cinfo, hc, h1⟩ := Draw.bind_eq_val h
  clear h
  obtain ⟨func, hf, h2⟩ := Draw.bind_eq_val h1
  clear h1
  obtain ⟨snd, hs, h3⟩ := Draw.bind_eq_val h2
  clear h2
  obtain ⟨tc, htc, h4⟩ := Draw.bind_eq_val h3
  clear h3
  simp only [Draw.val.injEq, Prod.mk.injEq] at h4
  obtain ⟨hsnd, htgt, hcd⟩ := h4
  rw [fuzz_contract_with_calldata_eq] at htc
  simp only [Draw.val.injEq] at htc
  subst htc
  simp only [] at htgt hcd
  obtain ⟨ca, cabi, cfns⟩ := cinfo
  obtain ⟨name, hmem, hne⟩ := select_random_contract_val hc
  have hfel := select_random_function_val hf
  have hlen : func.selector.length = 4 := by
    rcases hfel with ⟨_, hft⟩ | ⟨_, hfa, _, _⟩
    · exact (hsel _ hmem).2 func hft
    · exact (hsel _ hmem).1 func hfa
  refine ⟨(ca, name, cabi, cfns), hmem, htgt, hne, func, ?_, ?_⟩
  · unfold eligible_function
    rcases hfel with ⟨hne2, hft⟩ | ⟨hnil, hfa, hp, hv⟩
    · have hemp : cfns.isEmpty = false := by
        cases hh : cfns with
        | nil => exact absurd hh hne2
        | cons x xs => rfl
      simp only [hemp, Bool.false_eq_true, if_false]
      exact hft
    · subst hnil
      simp only [List.isEmpty_nil, if_true]
      exact ⟨hfa, hp, hv⟩
  · rw [← hcd]
    exact List.take_left' hlen

/-- C1 witness: with a one-contract registry holding the non-payable
function `f` with selector `[1,2,3,4]`, a concrete draw produces the call
`(3, 5, [1,2,3,4,9])`, whose target is the registered address `5` and
whose first four calldata bytes are `f`'s selector. -/
theorem generate_call_target_registered_selector_eligible_witness :
    ∃ e ∈ ([(5, ("C", JsonAbi.mk [Function.mk "f" [1, 2, 3, 4]
          StateMutability.nonpayable], []))] : FuzzRunIdentifiedContracts),
      e.1 = 5 ∧ e.2.2.1.functions ≠ [] ∧
      ∃ f, eligible_function e.2.2.1 e.2.2.2 f ∧
        ([1, 2, 3, 4, 9] : List Nat).take 4 = f.selector :=
  generate_call_target_registered_selector_eligible ⟨[3], []⟩
    [(5, ("C", JsonAbi.mk [Function.mk "f" [1, 2, 3, 4] StateMutability.nonpayable], []))]
    50 0 0 0 7 8 0 0 [9] [] 3 5 [1, 2, 3, 4, 9] (by decide) (by decide)

/-- C2 counterexample: targeting does NOT hold regardless of
`dictionary_weight`.  The source builds `Union::new_weighted` eagerly,
before the targeted check, so at weight `0` (and `100`) the zero-weight
union option panics strategy construction: with
`targeted = excluded = [0xBEEF]` (`48879`) no sender is produced at all
at those weights. -/
theorem select_random_sender_targeted_zero_weight_counterexample :
    select_random_sender ⟨[48879], [48879]⟩ 0 0 1 2 0 = Draw.panic ∧
    select_random_sender ⟨[48879], [48879]⟩ 100 0 1 2 0 = Draw.panic := by
  decide

/-- C2 (amended): for every `dictionary_weight` strictly between 0 and
100 (so the eagerly built union has two nonzero weights and constructs),
a non-empty targeted sender set is used exclusively: every draw yields a
member of it, and the result is independent of the excluded set, the
mix's weight and both mix branches — an address that is both targeted
and excluded is still produced.  At weight 0 or 100 the union panics
before the targeted branch is consulted. -/
theorem select_random_sender_targeted_precedence
    (t ex ex' : List Address) (w w' sp sp' : Nat) (ra ra' da da' : Address)
    (si : Nat) (ht : t ≠ []) (hw0 : 0 < w) (hw1 : w < 100)
    (hw0' : 0 < w') (hw1' : w' < 100) :
    (∃ a ∈ t, select_random_sender ⟨t, ex⟩ w sp ra da si = Draw.val a) ∧
    select_random_sender ⟨t, ex⟩ w sp ra da si =
      select_random_sender ⟨t, ex'⟩ w' sp' ra' da' si := by
  constructor
  · rw [select_random_sender_targeted_eq ht hw0 hw1]
    exact selectorSelect_nonempty ht si
  · rw [select_random_sender_targeted_eq ht hw0 hw1,
      select_random_sender_targeted_eq ht hw0' hw1']

/-- C2 witness (amended claim): with `targeted = excluded = [0xBEEF]`
(`48879`) and in-range weights, the draw still produces a targeted
address, and neither the excluded set nor the dictionary-mix inputs
influence the outcome. -/
theorem select_random_sender_targeted_precedence_witness :
    (∃ a ∈ [48879], select_random_sender ⟨[48879], [48879]⟩ 50 0 1 2 0 = Draw.val a) ∧
    select_random_sender ⟨[48879], [48879]⟩ 50 0 1 2 0 =
      select_random_sender ⟨[48879], []⟩ 90 3 1 2 0 :=
  select_random_sender_targeted_precedence [48879] [48879] [] 50 90 0 3 1 1 2 2 0
    (by decide) (by decide) (by decide) (by decide) (by decide)

/-- C3: when the targeted sender set is empty, no emitted sender is ever a
member of the excluded set (for every `dictionary_weight`, since a draw
that panics at union construction emits nothing); and whenever a draw
actually reaches the filter (both union weights nonzero, i.e.
`0 < dictionary_weight < 100`) with an excluded underlying address, it
ends in a `prop_filter` rejection (a redraw), never in an emitted value. -/
theorem select_random_sender_never_excluded
    (senders : SenderFilters) (w sp : Nat) (ra da : Address) (si : Nat)
    (ht : senders.targeted = []) :
    (∀ a, select_random_sender senders w sp ra da si = Draw.val a →
        a ∉ senders.excluded) ∧
    (0 < w → w < 100 → ra ∈ senders.excluded → da ∈ senders.excluded →
        select_random_sender senders w sp ra da si = Draw.reject) := by
  constructor
  · intro a ha
    unfold select_random_sender at ha
    by_cases hz : 100 - w = 0 ∨ w = 0
    · rw [if_pos hz] at ha
      simp at ha
    · rw [if_neg hz] at ha
      simp only [ht, List.isEmpty_nil, Bool.not_true, Bool.false_eq_true,
        if_false] at ha
      rcases unionTwoWeighted_cases (100 - w) w (Draw.val ra) (Draw.val da) sp
        with hu | hu | hu <;> rw [hu] at ha
      · by_cases hc : ra ∈ senders.excluded
        · have hcc : senders.excluded.contains ra = true := by simpa using hc
          simp only [Draw.bind] at ha
          rw [if_pos hcc] at ha
          simp at ha
        · have hcc : ¬ senders.excluded.contains ra = true := by simpa using hc
          simp only [Draw.bind] at ha
          rw [if_neg hcc] at ha
          rw [← Draw.val.inj ha]
          exact hc
      · by_cases hc : da ∈ senders.excluded
        · have hcc : senders.excluded.contains da = true := by simpa using hc
          simp only [Draw.bind] at ha
          rw [if_pos hcc] at ha
          simp at ha
        · have hcc : ¬ senders.excluded.contains da = true := by simpa using hc
          simp only [Draw.bind] at ha
          rw [if_neg hcc] at ha
          rw [← Draw.val.inj ha]
          exact hc
      · simp [Draw.bind] at ha
  · intro hw0 hw1 hra hda
    rw [select_random_sender_mix_eq ht hw0 hw1]
    have hcc : senders.excluded.contains
        (if sp % 100 < 100 - w then ra else da) = true := by
      split
      · simpa using hra
      · simpa using hda
    rw [if_pos hcc]

/-- C3 witness: with `excluded = [7]` and both mix branches drawing `7`,
the draw is rejected (redrawn), not emitted. -/
theorem select_random_sender_never_excluded_witness :
    select_random_sender ⟨[], [7]⟩ 50 0 7 7 0 = Draw.reject :=
  (select_random_sender_never_excluded ⟨[], [7]⟩ 50 0 7 7 0 rfl).2 (by decide)
    (by decide) (by decide) (by decide)

/-- C4: contract selection keeps only contracts whose ABI exposes at least
one function; every surviving contract is selectable; and when nothing
survives the filter the draw is a hard `panic` — an immediate abort of
that draw, not a `reject` (which is what would make the runner loop and
retry). -/
theorem select_random_contract_filter_and_fail
    (contracts : FuzzRunIdentifiedContracts) (ci : Nat) :
    (∀ a abi fns, select_random_contract contracts ci = Draw.val (a, abi, fns) →
        ∃ name, (a, name, abi, fns) ∈ contracts ∧ abi.functions ≠ []) ∧
    (∀ e ∈ contracts, e.2.2.1.functions ≠ [] →
        ∃ j, select_random_contract contracts j = Draw.val (e.1, e.2.2.1, e.2.2.2)) ∧
    (contracts.filter (fun e => !e.2.2.1.functions.isEmpty) = [] →
        select_random_contract contracts ci = Draw.panic) := by
  refine ⟨?_, ?_, ?_⟩
  · intro a abi fns h
    exact select_random_contract_val h
  · intro e he hf
    exact select_random_contract_of_mem he hf
  · intro h
    exact select_random_contract_empty h ci

/-- C4 witness: a registry holding only a zero-function contract makes the
contract-selection draw panic. -/
theorem select_random_contract_filter_and_fail_witness :
    select_random_contract [(5, ("C", JsonAbi.mk [], []))] 0 = Draw.panic :=
  (select_random_contract_filter_and_fail [(5, ("C", JsonAbi.mk [], []))] 0).2.2
    (by decide)

/-- C5: when the targeted-function list is non-empty the chosen function
always comes from it and every listed function — pure or view included —
is choosable; when it is empty the chosen function is a non-pure,
non-view ABI function and every such function is choosable. -/
theorem select_random_function_targeting_and_mutability
    (abi : JsonAbi) (targeted_functions : List Function) (fi : Nat) :
    (targeted_functions ≠ [] → ∀ f,
        select_random_function abi targeted_functions fi = Draw.val f →
        f ∈ targeted_functions) ∧
    (∀ f ∈ targeted_functions, ∃ j,
        select_random_function abi targeted_functions j = Draw.val f) ∧
    (targeted_functions = [] → ∀ f,
        select_random_function abi targeted_functions fi = Draw.val f →
        f ∈ abi.functions ∧ f.state_mutability ≠ StateMutability.pure ∧
          f.state_mutability ≠ StateMutability.view) ∧
    (targeted_functions = [] → ∀ f ∈ abi.functions,
        f.state_mutability ≠ StateMutability.pure →
        f.state_mutability ≠ StateMutability.view →
        ∃ j, select_random_function abi targeted_functions j = Draw.val f) := by
  refine ⟨?_, ?_, ?_, ?_⟩
  · intro hne f h
    rcases select_random_function_val h with ⟨_, hm⟩ | ⟨hnil, _, _, _⟩
    · exact hm
    · exact absurd hnil hne
  · intro f hf
    exact select_random_function_of_mem_targeted hf
  · intro hnil f h
    rcases select_random_function_val h with ⟨hne, _⟩ | ⟨_, hm, hp, hv⟩
    · exact absurd hnil hne
    · exact ⟨hm, hp, hv⟩
  · intro hnil f hf hp hv
    subst hnil
    exact select_random_function_of_mem_mutable hf hp hv

/-- C5 witness: an explicitly targeted pure function is choosable despite
its mutability. -/
theorem select_random_function_targeting_and_mutability_witness :
    ∃ j, select_random_function (JsonAbi.mk [])
        [Function.mk "g" [9, 9, 9, 9] StateMutability.pure] j =
      Draw.val (Function.mk "g" [9, 9, 9, 9] StateMutability.pure) :=
  (select_random_function_targeting_and_mutability (JsonAbi.mk [])
      [Function.mk "g" [9, 9, 9, 9] StateMutability.pure] 0).2.1
    (Function.mk "g" [9, 9, 9, 9] StateMutability.pure) (by decide)

/-- C7 counterexample: the draw does NOT succeed across the whole
`[0,100]` range — at the endpoints 0 and 100 one option of the eagerly
built `Union::new_weighted` has weight 0 and its constructor assertion
panics before any pick is drawn, so no sender draw succeeds there. -/
theorem select_random_sender_endpoint_panic_counterexample :
    select_random_sender ⟨[], []⟩ 0 55 1 2 0 = Draw.panic ∧
    select_random_sender ⟨[], []⟩ 100 0 1 2 0 = Draw.panic := by
  decide

/-- C7 (amended): with an empty targeted set, for every
`dictionary_weight` strictly between 0 and 100 the sender draw is exactly
the two-alternative weighted mix — the uniform branch (`ra`) precisely
when the pick falls below `100 - dictionary_weight` of the total weight
100, the dictionary branch (`da`) otherwise, always a value or a filter
rejection; at the endpoints 0 and 100 the zero-weight union option makes
strategy construction panic, so those draws never succeed. -/
theorem select_random_sender_weighted_mix
    (senders : SenderFilters) (w sp : Nat) (ra da : Address) (si : Nat)
    (ht : senders.targeted = []) :
    (0 < w → w < 100 →
      select_random_sender senders w sp ra da si =
        if senders.excluded.contains (if sp % 100 < 100 - w then ra else da)
        then Draw.reject
        else Draw.val (if sp % 100 < 100 - w then ra else da)) ∧
    ((w = 0 ∨ w = 100) →
      select_random_sender senders w sp ra da si = Draw.panic) := by
  constructor
  · intro hw0 hw1
    exact select_random_sender_mix_eq ht hw0 hw1 sp ra da si
  · intro hz
    exact select_random_sender_zero_weight_panics senders (by omega) sp ra da si

/-- C7 witness (amended claim): at weight 50 a draw succeeds through the
uniform branch; at the endpoint weight 100 the draw panics at strategy
construction. -/
theorem select_random_sender_weighted_mix_witness :
    select_random_sender ⟨[], []⟩ 50 0 1 2 0 = Draw.val 1 ∧
    select_random_sender ⟨[], []⟩ 100 3 1 2 0 = Draw.panic :=
  ⟨((select_random_sender_weighted_mix ⟨[], []⟩ 50 0 1 2 0 rfl).1 (by decide)
      (by decide)).trans (by decide),
   (select_random_sender_weighted_mix ⟨[], []⟩ 100 3 1 2 0 rfl).2 (by decide)⟩

/-- C6 counterexample: the 20-weight branch of the override target union
is NOT subject to the eligibility filter of ordinary contract selection.
With a registry holding a single contract at address `5` whose ABI
exposes zero functions, ordinary contract selection panics (no eligible
contract), yet the override union's 20-weight branch (pick 80) selects
address `5`, and the full override strategy even emits a call to it. -/
theorem override_call_strat_unfiltered_counterexample :
    select_random_contract
        [(5, ("C", JsonAbi.mk [], [Function.mk "g" [9, 9, 9, 9] StateMutability.pure]))]
        0 = Draw.panic ∧
    override_target_draw
        [(5, ("C", JsonAbi.mk [], [Function.mk "g" [9, 9, 9, 9] StateMutability.pure]))]
        7 80 0 = Draw.val 5 ∧
    override_call_strat
        [(5, ("C", JsonAbi.mk [], [Function.mk "g" [9, 9, 9, 9] StateMutability.pure]))]
        7 80 0 0 0 [] [] = Draw.val (5, [9, 9, 9, 9]) := by
  decide

/-- C6 (amended): the override target is drawn with weight 80 toward the
supplied address and weight 20 toward a uniformly selected key of the
registry, with NO eligibility filtering — every registered address,
including one whose ABI exposes zero functions, is reachable through the
20-weight branch. -/
theorem override_target_draw_weights
    (contracts : FuzzRunIdentifiedContracts) (target : Address) (up ci : Nat) :
    (up % 100 < 80 → override_target_draw contracts target up ci = Draw.val target) ∧
    (80 ≤ up % 100 → ∀ a, override_target_draw contracts target up ci = Draw.val a →
        a ∈ contracts.map fun e => e.1) ∧
    (∀ e ∈ contracts, 80 ≤ up % 100 → ∃ j,
        override_target_draw contracts target up j = Draw.val e.1) := by
  have heq : ∀ j, override_target_draw contracts target up j =
      if up % (80 + 20) < 80 then Draw.val target
      else override_random_contract contracts j := by
    intro j
    unfold override_target_draw
    rw [unionTwoWeighted_eq (by omega) (by omega)]
  refine ⟨?_, ?_, ?_⟩
  · intro h
    rw [heq ci, if_pos (by omega)]
  · intro h a ha
    rw [heq ci, if_neg (by omega)] at ha
    exact selectorSelect_val_mem ha
  · intro e he h
    have hm : e.1 ∈ contracts.map (fun e => e.1) := List.mem_map_of_mem _ he
    obtain ⟨j, hj⟩ := selectorSelect_of_mem hm
    refine ⟨j, ?_⟩
    rw [heq j, if_neg (by omega)]
    exact hj

/-- C6 witness (amended claim): the 80-weight branch returns the supplied
address. -/
theorem override_target_draw_weights_witness :
    override_target_draw [(5, ("C", JsonAbi.mk [], []))] 7 0 0 = Draw.val 7 :=
  (override_target_draw_weights [(5, ("C", JsonAbi.mk [], []))] 7 0 0).1 (by decide)

/-- C9: after the override union picks the externally supplied target
address, the registry lookup is `.unwrap()`ed; when that address was
never registered, the draw ends in a panic — an unrecoverable abort,
not an error value and not a rejection. -/
theorem override_call_strat_unregistered_target_panics
    (contracts : FuzzRunIdentifiedContracts) (target : Address)
    (up ci fi cp : Nat) (argsC argsS : List Nat)
    (hbranch : up % 100 < 80)
    (hk : ∀ e ∈ contracts, e.1 ≠ target) :
    override_call_strat contracts target up ci fi cp argsC argsS = Draw.panic := by
  have htgt : override_target_draw contracts target up ci = Draw.val target := by
    unfold override_target_draw
    rw [unionTwoWeighted_eq (by omega) (by omega)]
    rw [if_pos (by omega)]
  have hget : registryGet contracts target = none := by
    unfold registryGet
    have hfind : contracts.find? (fun e => e.1 == target) = none := by
      rw [List.find?_eq_none]
      intro e he
      simpa using hk e he
    rw [hfind]
    rfl
  unfold override_call_strat
  rw [htgt]
  simp only [Draw.bind, hget]

/-- C9 witness: an unregistered supplied target (address `7`, registry
holding only address `5`) makes the override draw panic. -/
theorem override_call_strat_unregistered_target_panics_witness :
    override_call_strat [(5, ("C", JsonAbi.mk [], []))] 7 0 0 0 0 [] [] =
      Draw.panic :=
  override_call_strat_unregistered_target_panics [(5, ("C", JsonAbi.mk [], []))]
    7 0 0 0 0 [] [] (by decide) (by decide)

/-- C10: every value produced by the top-level invariant strategy is a
one-element vector — only the first call of a sequence is seeded by the
strategy. -/
theorem invariant_strat_singleton
    (senders : SenderFilters) (contracts : FuzzRunIdentifiedContracts)
    (w ci fi sp : Nat) (ra da : Address) (si cp : Nat) (argsC argsS : List Nat)
    (l : List (Address × Address × List Nat))
    (h : invariant_strat senders contracts w ci fi sp ra da si cp argsC argsS =
          Draw.val l) :
    l.length = 1 := by
  unfold invariant_strat at h
  obtain ⟨x, hx, h2⟩ := Draw.bind_eq_val h
  rw [← Draw.val.inj h2]
  rfl

/-- C10 witness: a concrete successful draw yields the one-element vector
`[(3, 5, [1,2,3,4,9])]`. -/
theorem invariant_strat_singleton_witness :
    ([((3 : Address), (5 : Address), [1, 2, 3, 4, 9])] :
        List (Address × Address × List Nat)).length = 1 :=
  invariant_strat_singleton ⟨[3], []⟩
    [(5, ("C", JsonAbi.mk [Function.mk "f" [1, 2, 3, 4] StateMutability.nonpayable], []))]
    50 0 0 0 7 8 0 0 [9] [] [((3 : Address), (5 : Address), [1, 2, 3, 4, 9])]
    (by decide)

/-- C8 counterexample: a malformed verifier URL is NOT rejected at setup.
With a parser that rejects the URL, the run succeeds anyway when the
verification operation succeeds; and when the operation fails, the
invalid URL is first reported mid-run, wrapped around the runtime
verification failure. -/
theorem verify_run_url_unchecked_counterexample :
    VerifyArgs.run (some "::bad::")
        (fun _ => Except.error "relative URL without a base") (Except.ok ()) =
      Except.ok () ∧
    VerifyArgs.run (some "::bad::")
        (fun _ => Except.error "relative URL without a base")
        (Except.error "verify failed") =
      Except.error (VerifyRunError.wrappedInvalidUrl "::bad::"
        "relative URL without a base" "verify failed") :=
  ⟨rfl, rfl⟩

/-- C8 (amended): `VerifyArgs::run` never consults the verifier URL before
the verification operation runs; when the operation succeeds the URL is
not inspected at all, and when it fails with an unparsable configured URL
the failure is wrapped with an invalid-URL diagnostic — URL validity is
detected only after a runtime failure, not at setup. -/
theorem verify_run_url_only_on_error (vu : Option String)
    (urlParse : String → Except String Url) :
    (VerifyArgs.run vu urlParse (Except.ok ()) = Except.ok ()) ∧
    (∀ url perr err, vu = some url → urlParse url = Except.error perr →
        VerifyArgs.run vu urlParse (Except.error err) =
          Except.error (VerifyRunError.wrappedInvalidUrl url perr err)) := by
  constructor
  · rfl
  · intro url perr err hvu hparse
    subst hvu
    simp [VerifyArgs.run, hparse]

/-- C8 witness (amended claim): a failing verification with an unparsable
configured URL yields the invalid-URL-wrapped error. -/
theorem verify_run_url_only_on_error_witness :
    VerifyArgs.run (some "http://1") (fun _ => Except.error "bad scheme")
        (Except.error "timeout") =
      Except.error (VerifyRunError.wrappedInvalidUrl "http://1" "bad scheme"
        "timeout") :=
  (verify_run_url_only_on_error (some "http://1")
      (fun _ => Except.error "bad scheme")).2 "http://1" "bad scheme" "timeout"
    rfl rfl
